import Mathlib

/-!
Shallow embedding of the clutterlog incremental gallery builder
(`src/site/media_library.rs`, `src/site/website.rs`, `src/site/website_media.rs`).

Rust strings are modelled as Lean `String`; filesystem reads and other I/O
outcomes are modelled as explicit inputs (`Option`/`Except` fields of the
file model).  Timestamps (`chrono::DateTime<Utc>` at second resolution) are
modelled as `Int` seconds since the Unix epoch, with explicit
civil-calendar conversion functions mirroring the proleptic Gregorian
calendar that chrono uses.
-/

namespace Clutterlog

/-! ### Basic string helpers (Rust `str` operations on ASCII-safe inputs) -/

/-- Applies `Char.toLower` character-wise; agrees with Rust `str::to_lowercase` on
ASCII input (file extensions in this program are ASCII). -/
def to_lowercase (s : String) : String := ⟨s.data.map Char.toLower⟩

/-- The Unicode `White_Space` characters, the set Rust `str::trim` strips. -/
def rust_whitespace : List Char :=
  [' ', '\t', '\n', '\u000B', '\u000C', '\r', '\u0085', '\u00A0', '\u1680',
   '\u2000', '\u2001', '\u2002', '\u2003', '\u2004', '\u2005', '\u2006',
   '\u2007', '\u2008', '\u2009', '\u200A', '\u2028', '\u2029', '\u202F',
   '\u205F', '\u3000']

/-- Rust `str::trim`: strip `White_Space` from both ends. -/
def rust_trim (s : String) : String :=
  ⟨((s.data.dropWhile (rust_whitespace.contains ·)).reverse.dropWhile
      (rust_whitespace.contains ·)).reverse⟩

/-- Rust `str::lines`: split at `'\n'`, strip one trailing `'\r'` per line,
and produce no final empty line for a trailing newline. -/
def rust_lines (s : String) : List String :=
  let parts := s.data.splitOn '\n'
  let parts := if parts.getLast? = some [] then parts.dropLast else parts
  parts.map (fun l => ⟨if l.getLast? = some '\r' then l.dropLast else l⟩)

/-- Rust `String::replace` with a `char` pattern: every occurrence of `c`
is replaced by the string `r`. -/
def rust_replace_char (s : String) (c : Char) (r : String) : String :=
  ⟨s.data.flatMap (fun x => if x = c then r.data else [x])⟩

/-- Decimal rendering of a natural number (Rust `Display` for integers). -/
def nat_to_string (n : Nat) : String := ⟨Nat.toDigits 10 n⟩

/-- Fold decimal digit characters into the number they denote. -/
def digits_to_nat (l : List Char) : Nat :=
  l.foldl (fun a c => a * 10 + (c.toNat - '0'.toNat)) 0

/-! ### Path name helpers (Rust `Path::file_stem` / `Path::extension`
on a bare file name, no directory separators). -/

/-- Index of the last `'.'` in the name that is not its first character,
or `none`.  Rust treats a leading dot (`.gitignore`) as part of the stem. -/
def last_dot_index (s : String) : Option Nat :=
  (List.range s.data.length).foldl
    (fun acc i => if i ≠ 0 ∧ s.data.getD i ' ' = '.' then some i else acc) none

/-- Rust `Path::file_stem` for a plain file name. -/
def file_stem (s : String) : String :=
  match last_dot_index s with
  | none => s
  | some i => ⟨s.data.take i⟩

/-- Rust `Path::extension` for a plain file name. -/
def path_extension (s : String) : Option String :=
  match last_dot_index s with
  | none => none
  | some i => some ⟨s.data.drop (i + 1)⟩

/-! ### Civil calendar arithmetic (proleptic Gregorian, as used by chrono).
`days_from_civil`/`civil_from_days` are the standard era-based conversions
between a calendar date and a count of days since 1970-01-01. -/

/-- Day count since 1970-01-01 of the civil date `y-m-d`. -/
def days_from_civil (y m d : Int) : Int :=
  let y := if m ≤ 2 then y - 1 else y
  let era := Int.fdiv y 400
  let yoe := y - era * 400
  let mp := if 2 < m then m - 3 else m + 9
  let doy := Int.fdiv (153 * mp + 2) 5 + d - 1
  let doe := yoe * 365 + Int.fdiv yoe 4 - Int.fdiv yoe 100 + doy
  era * 146097 + doe - 719468

/-- Civil date `(y, m, d)` of a day count since 1970-01-01. -/
def civil_from_days (z : Int) : Int × Nat × Nat :=
  let z := z + 719468
  let era := Int.fdiv z 146097
  let doe := (z - era * 146097).toNat
  let yoe := (doe - doe / 1460 + doe / 36524 - doe / 146096) / 365
  let y := (yoe : Int) + era * 400
  let doy := doe - (365 * yoe + yoe / 4 - yoe / 100)
  let mp := (5 * doy + 2) / 153
  let d := doy - (153 * mp + 2) / 5 + 1
  let m := if mp < 10 then mp + 3 else mp - 9
  (if m ≤ 2 then y + 1 else y, m, d)

/-- Zero-pad to two digits (chrono `%m`, `%d`, `%H`, `%M`, `%S`). -/
def pad2 (n : Nat) : String :=
  if n < 10 then "0" ++ nat_to_string n else nat_to_string n

/-- Zero-pad a year to four digits (chrono `%Y` on the years that occur
here; negative years render with a leading minus). -/
def pad4 (y : Int) : String :=
  let n := y.natAbs
  let core :=
    if n < 10 then "000" ++ nat_to_string n
    else if n < 100 then "00" ++ nat_to_string n
    else if n < 1000 then "0" ++ nat_to_string n
    else nat_to_string n
  if y < 0 then "-" ++ core else core

/-- chrono `dt.format("%Y-%m-%dT%H:%M:%S")` on a UTC timestamp in
seconds since the epoch. -/
def format_timestamp (t : Int) : String :=
  let days := Int.fdiv t 86400
  let sod := (t - days * 86400).toNat
  let c := civil_from_days days
  pad4 c.1 ++ "-" ++ pad2 c.2.1 ++ "-" ++ pad2 c.2.2 ++ "T" ++
    pad2 (sod / 3600) ++ ":" ++ pad2 (sod % 3600 / 60) ++ ":" ++ pad2 (sod % 60)

/-- Leap-year test of the Gregorian calendar. -/
def is_leap_year (y : Nat) : Bool :=
  y % 4 = 0 && (y % 100 ≠ 0 || y % 400 = 0)

/-- Number of days in month `m` of year `y`. -/
def days_in_month (y m : Nat) : Nat :=
  if m = 2 then (if is_leap_year y then 29 else 28)
  else if m = 4 ∨ m = 6 ∨ m = 9 ∨ m = 11 then 30
  else 31

/-- Read exactly `k` decimal digits from the front of `l`. -/
def read_fixed_nat (l : List Char) (k : Nat) : Option (Nat × List Char) :=
  let pre := l.take k
  if pre.length = k ∧ pre.all Char.isDigit then
    some (digits_to_nat pre, l.drop k)
  else none

/-- Expect character `c` at the front of `l`. -/
def read_char (l : List Char) (c : Char) : Option (List Char) :=
  match l with
  | [] => none
  | x :: xs => if x = c then some xs else none

/-- chrono `NaiveDateTime::parse_from_str` with format
`%Y-%m-%d` `sep` `%H:%M:%S` on canonically formatted input
(four-digit year, two-digit zero-padded fields, valid calendar date),
returning the UTC epoch-second value of the parsed datetime. -/
def parse_datetime (sep : Char) (s : String) : Option Int := do
  let l := s.data
  let (y, l) ← read_fixed_nat l 4
  let l ← read_char l '-'
  let (m, l) ← read_fixed_nat l 2
  let l ← read_char l '-'
  let (d, l) ← read_fixed_nat l 2
  let l ← read_char l sep
  let (h, l) ← read_fixed_nat l 2
  let l ← read_char l ':'
  let (mi, l) ← read_fixed_nat l 2
  let l ← read_char l ':'
  let (sec, l) ← read_fixed_nat l 2
  if l = [] ∧ 1 ≤ m ∧ m ≤ 12 ∧ 1 ≤ d ∧ d ≤ days_in_month y m ∧
      h ≤ 23 ∧ mi ≤ 59 ∧ sec ≤ 59 then
    some (days_from_civil y m d * 86400 + h * 3600 + mi * 60 + sec)
  else none

/-! ### File model

A `MediaFile` models one directory entry together with the outcomes of the
I/O the program performs on it.  EXIF reading, `fs::metadata` timestamps,
the sidecar read, the staleness check and thumbnail generation are all
I/O whose results are supplied as fields. -/

/-- The three EXIF date fields the program consults, as the display
strings of the corresponding tags (a field is `none` when absent). -/
structure ExifTags where
  dateTimeOriginal : Option String
  dateTimeDigitized : Option String
  dateTime : Option String
deriving DecidableEq, Repr

/-- One directory entry with the outcomes of all I/O on it.
`exif = none` models an unreadable file or a missing EXIF container.
`created`/`modified` are `fs::metadata` timestamps in epoch seconds
(`none`: the call or the field failed).  `sidecar` models the sibling
`.txt` file: `none` if it is not a regular file, `some (.error ())` if
reading it failed, `some (.ok c)` for content `c`.  `upToDate` is the
outcome of the staleness check `is_up_to_date` — modelled from the spec:
the method itself is not in the sources, only its call site; the spec
leaves the precise stat-only predicate an implementation choice, so its
verdict is an abstract per-file boolean.  `readSizes`/`genSizes` are the
(media size, thumbnail size) outcomes of `read_existing_sizes` (also
modelled from the spec: read back previously recorded byte sizes) and
`copy_and_generate_thumb`. -/
structure MediaFile where
  name : String
  isFile : Bool
  exif : Option ExifTags
  created : Option Int
  modified : Option Int
  sidecar : Option (Except Unit String)
  upToDate : Bool
  readSizes : Except Unit (Nat × Nat)
  genSizes : Except Unit (Nat × Nat)
deriving Repr

/-- A plain file with no metadata available, used as a base for concrete
instances. -/
def bareFile (name : String) : MediaFile :=
  { name := name, isFile := true, exif := none, created := none,
    modified := none, sidecar := none, upToDate := false,
    readSizes := .ok (0, 0), genSizes := .ok (0, 0) }

/-! ### MediaLibrary (`src/site/media_library.rs`) -/

/-- Embeds `SUPPORTED_EXTENSIONS` from `website_media.rs`. -/
def SUPPORTED_EXTENSIONS : List String :=
  ["png", "jpg", "jpeg", "webp", "gif", "webm", "mp4"]

/-- Embeds `ANIMATED_EXTENSIONS` from `website_media.rs`. -/
def ANIMATED_EXTENSIONS : List String := ["gif", "webm", "mp4"]

/-- One persisted catalog entry (`MetaMedia`). -/
structure MetaMedia where
  name : String
  datetime : String
deriving DecidableEq, Repr

/-- Embeds `UpdateReport` from `media_library.rs`. -/
structure UpdateReport where
  added : Nat
  removed : Nat
deriving DecidableEq, Repr

/-- Embeds `extract_exif_date`: only for extensions in the listed set, and only
when the EXIF container is readable; the date tags are tried in strict
priority order and the first one that parses with format
`"%Y-%m-%d %H:%M:%S"` wins (a present but unparsable tag falls through to
the next). -/
def extract_exif_date (f : MediaFile) : Option Int :=
  match path_extension f.name with
  | none => none
  | some ext =>
    if ["jpg", "jpeg", "webp", "tiff", "tif"].contains (to_lowercase ext) then
      match f.exif with
      | none => none
      | some tags =>
        let fields := [tags.dateTimeOriginal, tags.dateTimeDigitized, tags.dateTime]
        fields.foldr
          (fun fld rest =>
            match fld with
            | some v =>
              match parse_datetime ' ' v with
              | some t => some t
              | none => rest
            | none => rest)
          none
    else none

/-- The candidate timestamp list of `extract_oldest_date`, in the order
the code pushes them: EXIF date, then filesystem created, then modified. -/
def date_candidates (f : MediaFile) : List Int :=
  (match extract_exif_date f with | some t => [t] | none => []) ++
  (match f.created with | some t => [t] | none => []) ++
  (match f.modified with | some t => [t] | none => [])

/-- Embeds `extract_oldest_date`: format the minimum candidate, or the epoch
sentinel when no candidate is obtainable. -/
def extract_oldest_date (f : MediaFile) : String :=
  match date_candidates f with
  | [] => "1970-01-01T00:00:00"
  | t :: ts => format_timestamp (ts.foldl min t)

/-- The filter of `MediaLibrary::update_metadata`'s directory walk: keep
regular files whose lowercased extension is supported. -/
def keeps_file (f : MediaFile) : Bool :=
  f.isFile &&
    (match path_extension f.name with
     | none => false
     | some ext => SUPPORTED_EXTENSIONS.contains (to_lowercase ext))

/-- Embeds `current_files` of `update_metadata`: names of the kept entries, in
directory-listing order. -/
def current_files (dir : List MediaFile) : List String :=
  (dir.filter keeps_file).map (·.name)

/-- The add loop of `update_metadata`: walk the kept files in listing
order; a file whose name is absent from the (accumulating) entry list is
appended with its resolved date.  Returns the new entry list and the
added count. -/
def add_new_entries (entries : List MetaMedia) :
    List MediaFile → List MetaMedia × Nat
  | [] => (entries, 0)
  | f :: fs =>
    if entries.any (fun e => e.name = f.name) then
      add_new_entries entries fs
    else
      let r := add_new_entries (entries ++ [⟨f.name, extract_oldest_date f⟩]) fs
      (r.1, r.2 + 1)

/-- Embeds `MediaLibrary::update_metadata`.  `dir = none` models a missing media
directory.  `MediaLibrary::save` (serialize and write the full entry set)
is modelled as returning the persisted entry list; its I/O is assumed to
succeed.  Directory-read errors are likewise outside the model.  Returns
the persisted entries and the `UpdateReport`. -/
def update_metadata (entries : List MetaMedia) (dir : Option (List MediaFile)) :
    List MetaMedia × UpdateReport :=
  match dir with
  | none => ([], { added := 0, removed := entries.length })
  | some files =>
    let kept := files.filter keeps_file
    let current := kept.map (·.name)
    let (withNew, added) := add_new_entries entries kept
    let retained := withNew.filter (fun e => current.contains e.name)
    (retained, { added := added, removed := withNew.length - retained.length })

/-- Embeds `MediaLibrary::get_datetime`: first entry with the given name. -/
def get_datetime (entries : List MetaMedia) (filename : String) : Option String :=
  (entries.find? (fun e => e.name = filename)).map (·.datetime)

/-! ### WebsiteMedia (`src/site/website_media.rs`) -/

/-- The per-asset value built by classification (`WebsiteMedia`).
`source_path` is represented by the file name. -/
structure WebsiteMedia where
  filename : String
  title : String
  description : String
  datetime : String
  extension : String
deriving DecidableEq, Repr

/-- A placeholder `WebsiteMedia` used only to read back concrete
`from_path` results in closed statements. -/
def wmDefault : WebsiteMedia :=
  { filename := "", title := "", description := "", datetime := "", extension := "" }

/-- Embeds `escape_js`: the four sequential `replace` passes of the source. -/
def escape_js (s : String) : String :=
  rust_replace_char
    (rust_replace_char
      (rust_replace_char
        (rust_replace_char s '\\' "\\\\")
        '"' "\\\"")
      '\n' "\\n")
    '\r' "\\r"

/-- Embeds `escape_xml`. -/
def escape_xml (s : String) : String :=
  rust_replace_char
    (rust_replace_char
      (rust_replace_char
        (rust_replace_char
          (rust_replace_char s '&' "&amp;")
          '<' "&lt;")
        '>' "&gt;")
      '"' "&quot;")
    '\'' "&apos;"

/-- Embeds `escape_html` (the three-replacement variant of `website_media.rs`). -/
def escape_html (s : String) : String :=
  rust_replace_char
    (rust_replace_char
      (rust_replace_char s '&' "&amp;")
      '<' "&lt;")
    '>' "&gt;"

/-- Embeds `escape_html_attr`. -/
def escape_html_attr (s : String) : String :=
  rust_replace_char
    (rust_replace_char
      (rust_replace_char
        (rust_replace_char s '&' "&amp;")
        '<' "&lt;")
      '>' "&gt;")
    '"' "&quot;"

/-- Embeds `mime_type`. -/
def mime_type (extension : String) : String :=
  if extension = "jpg" ∨ extension = "jpeg" then "image/jpeg"
  else if extension = "png" then "image/png"
  else if extension = "webp" then "image/webp"
  else if extension = "gif" then "image/gif"
  else if extension = "webm" then "video/webm"
  else if extension = "mp4" then "video/mp4"
  else "application/octet-stream"

/-- chrono `"%a, %d %b %Y %H:%M:%S +0000"` on a UTC epoch-second value. -/
def format_rfc2822 (t : Int) : String :=
  let days := Int.fdiv t 86400
  let sod := (t - days * 86400).toNat
  let c := civil_from_days days
  let wd := ((Int.fmod days 7 + 11).toNat % 7)
  let wdName := (["Sun", "Mon", "Tue", "Wed", "Thu", "Fri", "Sat"].getD wd "")
  let moName := (["Jan", "Feb", "Mar", "Apr", "May", "Jun", "Jul", "Aug",
                  "Sep", "Oct", "Nov", "Dec"].getD (c.2.1 - 1) "")
  wdName ++ ", " ++ pad2 c.2.2 ++ " " ++ moName ++ " " ++ pad4 c.1 ++ " " ++
    pad2 (sod / 3600) ++ ":" ++ pad2 (sod % 3600 / 60) ++ ":" ++
    pad2 (sod % 60) ++ " +0000"

/-- Embeds `datetime_to_rfc2822`: reformat a catalog datetime into the RSS date
form, or pass the string through unchanged when it does not parse. -/
def datetime_to_rfc2822 (datetime : String) : String :=
  match parse_datetime 'T' datetime with
  | some t => format_rfc2822 t
  | none => datetime

/-- Embeds `format_system_time` applied to a modification time, with the
`unwrap_or_else` epoch-sentinel fallback of `from_path` for a failed
`fs::metadata`/`modified` call. -/
def fallback_datetime (modified : Option Int) : String :=
  match modified with
  | some t => format_timestamp t
  | none => "1970-01-01T00:00:00"

/-- The caption block of `WebsiteMedia::from_path`: sidecar lookup, read
with `unwrap_or_default`, and the line-count case split.  Returns
`(title, description)`. -/
def resolve_caption (stem : String) (sidecar : Option (Except Unit String)) :
    String × String :=
  match sidecar with
  | none => (stem, "")
  | some r =>
    let content := match r with | .ok c => c | .error _ => ""
    match rust_lines content with
    | [] => (stem, "")
    | [l] => (stem, rust_trim l)
    | l :: ls => (rust_trim l, rust_trim (String.intercalate "\n" ls))

/-- Embeds `WebsiteMedia::from_path`: `none` unless the path is a regular file
with a supported (lowercased) extension; otherwise build the asset with
its caption and datetime. -/
def from_path (f : MediaFile) (datetime : Option String) : Option WebsiteMedia :=
  if !f.isFile then none
  else
    match path_extension f.name with
    | none => none
    | some rawExt =>
      let extension := to_lowercase rawExt
      if !SUPPORTED_EXTENSIONS.contains extension then none
      else
        let stem := file_stem f.name
        let caption := resolve_caption stem f.sidecar
        let dt := match datetime with
          | some d => d
          | none => fallback_datetime f.modified
        some { filename := f.name, title := caption.1,
               description := caption.2, datetime := dt,
               extension := extension }

/-- Embeds `WebsiteMedia::is_animated`. -/
def is_animated (m : WebsiteMedia) : Bool :=
  ANIMATED_EXTENSIONS.contains m.extension

/-- Embeds `WebsiteMedia::thumb_filename`. -/
def thumb_filename (m : WebsiteMedia) : String :=
  let stem := file_stem m.filename
  if is_animated m then stem ++ "_thumb.webp"
  else stem ++ "_thumb." ++ m.extension

/-- Embeds `WebsiteMedia::image_url`. -/
def image_url (m : WebsiteMedia) (base_url media_dir : String) : String :=
  base_url ++ "/" ++ media_dir ++ "/" ++ m.filename

/-- Embeds `WebsiteMedia::to_json_entry`: the fixed JSON object with every field
passed through `escape_js`. -/
def to_json_entry (m : WebsiteMedia) (base_url media_dir : String) : String :=
  let img := image_url m base_url media_dir
  let thumb := base_url ++ "/" ++ media_dir ++ "/" ++ thumb_filename m
  "            \x7b \"image_url\": \"" ++ escape_js img ++
    "\", \"thumb_url\": \"" ++ escape_js thumb ++
    "\", \"title\": \"" ++ escape_js m.title ++
    "\", \"description\": \"" ++ escape_js m.description ++
    "\", \"datetime\": \"" ++ escape_js m.datetime ++ "\" \x7d"

/-- Rust `str::trim_end_matches('/')`. -/
def trim_end_slashes (s : String) : String :=
  ⟨(s.data.reverse.dropWhile (· = '/')).reverse⟩

/-- Embeds `WebsiteMedia::to_rss_item`. -/
def to_rss_item (m : WebsiteMedia) (base_url media_dir : String) : String :=
  let base_url := trim_end_slashes base_url
  let img := image_url m base_url media_dir
  let item_link := base_url ++ "/#media=" ++ m.filename
  let pub_date := datetime_to_rfc2822 m.datetime
  let mime := mime_type m.extension
  let media_html :=
    if is_animated m && (m.extension = "webm" || m.extension = "mp4") then
      "<video src=\"" ++ img ++ "\" controls></video>"
    else
      "<img src=\"" ++ img ++ "\" alt=\"" ++ escape_html_attr m.title ++ "\"/>"
  let html_content :=
    "<![CDATA[<h2>" ++ escape_html m.title ++ "</h2>" ++ media_html ++
      "<p>" ++ escape_html m.description ++ "</p>]]>"
  "        <item>\n            <title>" ++ escape_xml m.title ++
    "</title>\n            <link>" ++ escape_xml item_link ++
    "</link>\n            <guid>" ++ escape_xml img ++
    "</guid>\n            <pubDate>" ++ pub_date ++
    "</pubDate>\n            <enclosure url=\"" ++ escape_xml img ++
    "\" type=\"" ++ mime ++ "\" length=\"0\"/>\n            <description>" ++
    html_content ++ "</description>\n        </item>"

/-! ### Website build (`src/site/website.rs`) -/

/-- Embeds `GenerationResult`. -/
structure GenerationResult where
  media_size : Nat
  thumb_size : Nat
  image_url : String
deriving DecidableEq, Repr

/-- Embeds `BuildReport`; `processing_time` is elapsed milliseconds. -/
structure BuildReport where
  items_processed : Nat
  items_skipped : Nat
  total_media_size : Nat
  total_thumbs_size : Nat
  processing_time : Nat
deriving DecidableEq, Repr

/-- Embeds `BuildReport::from_results`: `items_processed` is the length of the
collected result list; sizes are summed over it. -/
def from_results (results : List GenerationResult) (items_skipped : Nat)
    (processing_time : Nat) : BuildReport :=
  { items_processed := results.length,
    items_skipped := items_skipped,
    total_media_size := (results.map (·.media_size)).sum,
    total_thumbs_size := (results.map (·.thumb_size)).sum,
    processing_time := processing_time }

/-- The body of the parallel closure in `scan_and_copy_media`, for one
listed entry: classify; if classification fails the entry is dropped;
otherwise read back sizes (when the staleness check says up to date) or
copy-and-generate, and pair the outcome with the rendered JSON entry, the
RSS item and the skipped flag.  The `image_url` field of a successful
result is overwritten with the asset's URL, as in the source. -/
def process_item (base_url : String) (media_dir : String)
    (entries : List MetaMedia) (f : MediaFile) :
    Option (Except Unit (GenerationResult × String × String × Bool)) :=
  let datetime := get_datetime entries f.name
  match from_path f datetime with
  | none => none
  | some item =>
    let rs : Except Unit (Nat × Nat) × Bool :=
      if f.upToDate then (f.readSizes, true) else (f.genSizes, false)
    let entry := to_json_entry item base_url media_dir
    let rss_item := to_rss_item item base_url media_dir
    let url := image_url item base_url media_dir
    some (rs.1.map (fun sz =>
      ({ media_size := sz.1, thumb_size := sz.2, image_url := url },
       entry, rss_item, rs.2)))

/-- The sequential gather loop of `scan_and_copy_media`: walk the
per-item outcomes in listing order, propagating the first error and
otherwise accumulating results, JSON entries, RSS items and the skipped
count. -/
def gather_results :
    List (Except Unit (GenerationResult × String × String × Bool)) →
    Except Unit (List GenerationResult × List String × List String × Nat)
  | [] => .ok ([], [], [], 0)
  | .error e :: _ => .error e
  | .ok (g, entry, rss, skipped) :: rest =>
    (gather_results rest).map (fun acc =>
      (g :: acc.1, entry :: acc.2.1, rss :: acc.2.2.1,
       (if skipped then acc.2.2.2 + 1 else acc.2.2.2)))

/-- The final JSON-array assembly of `scan_and_copy_media`. -/
def render_json (entries : List String) : String :=
  if entries.isEmpty then "[]"
  else "[\n" ++ String.intercalate ",\n" entries ++ "\n        ]"

/-- Embeds `Website::scan_and_copy_media`.  `dir = none` models a missing source
media directory (empty output, no error).  The rayon `par_iter` fan-out
is embedded as an in-order traversal: rayon's `collect` on a parallel
iterator assembles the per-item outcomes in the order of the input
listing regardless of worker completion order, so the parallel phase is
order-equivalent to this sequential `filterMap`.  Returns the JSON
string, the RSS items, the generation results and the skipped count. -/
def scan_and_copy_media (entries : List MetaMedia)
    (dir : Option (List MediaFile)) (base_url media_dir : String) :
    Except Unit (String × List String × List GenerationResult × Nat) :=
  match dir with
  | none => .ok ("[]", [], [], 0)
  | some files =>
    let processed := files.filterMap (process_item base_url media_dir entries)
    (gather_results processed).map (fun acc =>
      (render_json acc.2.1, acc.2.2.1, acc.1, acc.2.2.2))

/-- The classified assets of a listing: the entries `from_path` accepts,
in listing order, paired with their catalog datetimes. -/
def classified_items (entries : List MetaMedia) (files : List MediaFile) :
    List WebsiteMedia :=
  files.filterMap (fun f => from_path f (get_datetime entries f.name))

/-! ### JS-string unescaping (inverse reading of `escape_js`) -/

/-- The character-wise effect of `escape_js`. -/
def esc_char_js (c : Char) : List Char :=
  if c = '\\' then ['\\', '\\']
  else if c = '"' then ['\\', '"']
  else if c = '\n' then ['\\', 'n']
  else if c = '\r' then ['\\', 'r']
  else [c]

/-- Decode one escape character of a JS string literal. -/
def unesc_char_js (c : Char) : Char :=
  if c = '\\' then '\\'
  else if c = '"' then '"'
  else if c = 'n' then '\n'
  else if c = 'r' then '\r'
  else c

/-- Standard unescaping of a JS/JSON script-literal string body: a
backslash combines with the following character; everything else is
literal. -/
def unescape_js_chars : List Char → List Char
  | [] => []
  | c :: rest =>
    if c = '\\' then
      match rest with
      | [] => [c]
      | d :: rest2 => unesc_char_js d :: unescape_js_chars rest2
    else c :: unescape_js_chars rest

/-- String-level unescaping. -/
def unescape_js (s : String) : String := ⟨unescape_js_chars s.data⟩

/-! ### Concrete instances used in closed statements -/

/-- The C2 counterexample file: a decodable embedded capture tag of
2020-01-01 10:00:00 together with an earlier filesystem creation time
(2019-06-01) and a later modification time (2023-05-05). -/
def c2exFile : MediaFile :=
  { bareFile "photo.jpg" with
    exif := some ⟨some "2020-01-01 10:00:00", none, none⟩,
    created := some 1559347200,
    modified := some 1683288000 }

/-- The spec's C2 example file: embedded tag "2020-01-01 10:00:00",
modification time 2023-05-05, no creation time available. -/
def c2wFile : MediaFile :=
  { bareFile "photo.jpg" with
    exif := some ⟨some "2020-01-01 10:00:00", none, none⟩,
    modified := some 1683288000 }

/-- The C5 counterexample: a catalog holding only `b.jpg`, reconciled
against a directory listing `a.jpg` before `b.jpg`. -/
def c5entries : List MetaMedia := [⟨"b.jpg", "2020-01-01T00:00:00"⟩]

/-- The C5 counterexample directory listing. -/
def c5dir : List MediaFile := [bareFile "a.jpg", bareFile "b.jpg"]

/-- The C8 witness file: a two-line sidecar, the spec's example. -/
def c8file : MediaFile :=
  { bareFile "trip.jpg" with sidecar := some (.ok "My Trip\nA day at the lake") }

/-- The C8 witness asset as produced by classification. -/
def c8media : WebsiteMedia :=
  (from_path c8file (some "2020-01-01T00:00:00")).getD wmDefault

/-- The C10 witness file: a readable-looking sidecar whose read fails. -/
def c10file : MediaFile :=
  { bareFile "pic.png" with sidecar := some (.error ()) }

/-- The C10 witness asset as produced by classification. -/
def c10media : WebsiteMedia := (from_path c10file none).getD wmDefault

/-- The listed files that classification accepts, in listing order. -/
def classified_files (entries : List MetaMedia) (files : List MediaFile) :
    List MediaFile :=
  files.filter (fun f => (from_path f (get_datetime entries f.name)).isSome)

/-- The C1 counterexample file: classified, judged up to date by the
staleness check, with readable recorded sizes — the state of every asset
on a second build with no source changes. -/
def c1file : MediaFile :=
  { bareFile "a.jpg" with upToDate := true, readSizes := .ok (100, 10) }

/-- The C1 counterexample catalog. -/
def c1lib : List MetaMedia := [⟨"a.jpg", "2020-01-01T10:00:00"⟩]

/-- The C1 counterexample scan output. -/
def c1out : String × List String × List GenerationResult × Nat :=
  (scan_and_copy_media c1lib (some [c1file]) "u" "m").toOption.getD ("", [], [], 0)

/-- The C1 counterexample build report. -/
def c1report : BuildReport := from_results c1out.2.2.1 c1out.2.2.2 0

/-- A C4 witness file needing regeneration. -/
def c4fileA : MediaFile := { bareFile "a.png" with genSizes := .ok (5, 1) }

/-- A second C4 witness file. -/
def c4fileB : MediaFile := { bareFile "b.jpg" with genSizes := .ok (7, 2) }

/-- The C4 witness scan output over the two-file listing. -/
def c4out : String × List String × List GenerationResult × Nat :=
  (scan_and_copy_media [] (some [c4fileA, c4fileB]) "u" "m").toOption.getD
    ("", [], [], 0)

/-! ### Helper lemmas -/

lemma foldl_min_le_self (l : List Int) (a : Int) : l.foldl min a ≤ a := by
  induction l generalizing a with
  | nil => exact le_refl a
  | cons c t ih => exact le_trans (ih (min a c)) (min_le_left a c)

lemma foldl_min_le_mem (l : List Int) (a : Int) :
    ∀ u ∈ l, l.foldl min a ≤ u := by
  induction l generalizing a with
  | nil => intro u hu; cases hu
  | cons c t ih =>
    intro u hu
    rcases List.mem_cons.1 hu with h | h
    · subst h; exact le_trans (foldl_min_le_self t (min a u)) (min_le_right a u)
    · exact ih (min a c) u h

lemma foldl_min_mem (l : List Int) (a : Int) :
    l.foldl min a = a ∨ l.foldl min a ∈ l := by
  induction l generalizing a with
  | nil => exact Or.inl rfl
  | cons c t ih =>
    rcases ih (min a c) with h | h
    · rcases min_choice a c with hm | hm
      · exact Or.inl (by rw [List.foldl_cons, h, hm])
      · exact Or.inr (by rw [List.foldl_cons, h, hm]; exact List.mem_cons_self c t)
    · exact Or.inr (List.mem_cons_of_mem c h)

lemma foldl_min_eq_self (l : List Int) (a : Int) (h : ∀ u ∈ l, a ≤ u) :
    l.foldl min a = a := by
  induction l generalizing a with
  | nil => rfl
  | cons c t ih =>
    rw [List.foldl_cons, min_eq_left (h c (List.mem_cons_self c t))]
    exact ih a (fun u hu => h u (List.mem_cons_of_mem c hu))

/-! ### Claims C3, C2 — date resolution -/

lemma oldest_date_min_spec (f : MediaFile) :
    (date_candidates f = [] ∧ extract_oldest_date f = "1970-01-01T00:00:00") ∨
    (∃ t, t ∈ date_candidates f ∧ (∀ u ∈ date_candidates f, t ≤ u) ∧
      extract_oldest_date f = format_timestamp t) := by
  rcases h : date_candidates f with _ | ⟨t, ts⟩
  · exact Or.inl ⟨rfl, by rw [extract_oldest_date, h]⟩
  · refine Or.inr ⟨ts.foldl min t, ?_, ?_, by rw [extract_oldest_date, h]⟩
    · rcases foldl_min_mem ts t with hm | hm
      · rw [hm]; exact List.mem_cons_self t ts
      · exact List.mem_cons_of_mem t hm
    · intro u hu
      rcases List.mem_cons.1 hu with hu | hu
      · subst hu; exact foldl_min_le_self ts u
      · exact foldl_min_le_mem ts t u hu

/-- C3: at first cataloging, the resolved capture date is the formatted
minimum of the obtainable candidate timestamps — the decodable embedded
EXIF timestamp, the filesystem creation time and the modification time —
and the exact sentinel `1970-01-01T00:00:00` when no candidate is
obtainable. -/
theorem claim_C3_oldest_date_min (f : MediaFile) :
    (date_candidates f = [] ∧ extract_oldest_date f = "1970-01-01T00:00:00") ∨
    (∃ t, t ∈ date_candidates f ∧ (∀ u ∈ date_candidates f, t ≤ u) ∧
      extract_oldest_date f = format_timestamp t) :=
  oldest_date_min_spec f

/-- C2 counterexample: the embedded capture timestamp of `c2exFile` is
decodable (2020-01-01 10:00:00), yet date resolution returns the earlier
filesystem creation time 2019-06-01T00:00:00, not the embedded timestamp
— refuting "returns that embedded timestamp, regardless of whether the
filesystem creation or modification time is chronologically earlier". -/
theorem claim_C2_counterexample :
    extract_exif_date c2exFile = some 1577872800 ∧
    format_timestamp 1577872800 = "2020-01-01T10:00:00" ∧
    c2exFile.created = some 1559347200 ∧
    format_timestamp 1559347200 = "2019-06-01T00:00:00" ∧
    extract_oldest_date c2exFile = "2019-06-01T00:00:00" ∧
    extract_oldest_date c2exFile ≠ "2020-01-01T10:00:00" := by
  refine ⟨rfl, rfl, rfl, rfl, rfl, ?_⟩
  decide

/-- C2 as amended: first-time date resolution returns the decodable
embedded capture timestamp whenever it is no later than every obtainable
filesystem timestamp; in particular the spec's example (embedded tag
"2020-01-01 10:00:00", 2023 modification time) resolves to
`2020-01-01T10:00:00`. -/
theorem claim_C2_amended (f : MediaFile) (t : Int)
    (hex : extract_exif_date f = some t)
    (hmin : ∀ u ∈ date_candidates f, t ≤ u) :
    extract_oldest_date f = format_timestamp t := by
  have hmem : t ∈ date_candidates f := by
    rw [date_candidates, hex]; simp
  rcases oldest_date_min_spec f with ⟨hnil, _⟩ | ⟨u, hmem2, hle, hres⟩
  · rw [hnil] at hmem; cases hmem
  · rw [hres, le_antisymm (hle t hmem) (hmin u hmem2)]

/-- C2 amended witness: the spec's example resolves to the embedded
timestamp. -/
theorem claim_C2_amended_witness :
    extract_oldest_date c2wFile = "2020-01-01T10:00:00" :=
  (claim_C2_amended c2wFile 1577872800 rfl (by decide)).trans rfl

/-! ### Claim C7 — missing media directory -/

/-- C7: reconciling against a missing media directory is not an error:
every entry is removed, the now-empty catalog is the persisted state, and
the report is added = 0, removed = the previous entry count. -/
theorem claim_C7_missing_dir (entries : List MetaMedia) :
    update_metadata entries none =
      ([], { added := 0, removed := entries.length }) := rfl

/-! ### Claim C9 — JS escaping -/

lemma rust_replace_char_data (s : String) (c : Char) (r : String) :
    (rust_replace_char s c r).data =
      s.data.flatMap (fun x => if x = c then r.data else [x]) := rfl

lemma escape_js_data (s : String) :
    (escape_js s).data = s.data.flatMap esc_char_js := by
  show ((((s.data.flatMap
      (fun x => if x = '\\' then ['\\', '\\'] else [x])).flatMap
      (fun x => if x = '"' then ['\\', '"'] else [x])).flatMap
      (fun x => if x = '\n' then ['\\', 'n'] else [x])).flatMap
      (fun x => if x = '\r' then ['\\', 'r'] else [x])) =
    s.data.flatMap esc_char_js
  induction s.data with
  | nil => rfl
  | cons c t ih =>
    rw [List.flatMap_cons, List.flatMap_append, List.flatMap_append,
      List.flatMap_append, List.flatMap_cons, ih]
    congr 1
    by_cases h1 : c = '\\'
    · subst h1; rfl
    by_cases h2 : c = '"'
    · subst h2; rfl
    by_cases h3 : c = '\n'
    · subst h3; rfl
    by_cases h4 : c = '\r'
    · subst h4; rfl
    simp only [if_neg h1, if_neg h2, if_neg h3, if_neg h4,
      List.flatMap_cons, List.flatMap_nil, List.append_nil, esc_char_js]

lemma unescape_cons_esc (d : Char) (rest : List Char) :
    unescape_js_chars ('\\' :: d :: rest) =
      unesc_char_js d :: unescape_js_chars rest := rfl

lemma unescape_cons_ne (c : Char) (h : ¬ c = '\\') (rest : List Char) :
    unescape_js_chars (c :: rest) = c :: unescape_js_chars rest := by
  rw [unescape_js_chars.eq_def]
  simp only [if_neg h]

lemma unescape_flatMap (l : List Char) :
    unescape_js_chars (l.flatMap esc_char_js) = l := by
  induction l with
  | nil => rfl
  | cons c t ih =>
    rw [List.flatMap_cons]
    by_cases h1 : c = '\\'
    · subst h1
      show unescape_js_chars ('\\' :: '\\' :: t.flatMap esc_char_js) = _
      rw [unescape_cons_esc, ih]; rfl
    by_cases h2 : c = '"'
    · subst h2
      show unescape_js_chars ('\\' :: '"' :: t.flatMap esc_char_js) = _
      rw [unescape_cons_esc, ih]; rfl
    by_cases h3 : c = '\n'
    · subst h3
      show unescape_js_chars ('\\' :: 'n' :: t.flatMap esc_char_js) = _
      rw [unescape_cons_esc, ih]; rfl
    by_cases h4 : c = '\r'
    · subst h4
      show unescape_js_chars ('\\' :: 'r' :: t.flatMap esc_char_js) = _
      rw [unescape_cons_esc, ih]; rfl
    · have he : esc_char_js c = [c] := by simp [esc_char_js, h1, h2, h3, h4]
      rw [he]
      show unescape_js_chars (c :: t.flatMap esc_char_js) = _
      rw [unescape_cons_ne c h1, ih]

/-- C9: `escape_js` is character-wise — every character other than
backslash, double quote, newline and carriage return is left unchanged —
and it is invertible: unescaping the escaped value (as embedded in each
field of the JSON fragment by `to_json_entry`) returns exactly the
original string, for every string, including one containing `"<>&`. -/
theorem claim_C9_escape_roundtrip :
    (∀ s : String, unescape_js (escape_js s) = s) ∧
    (∀ c : Char, c ∈ ['\\', '"', '\n', '\r'] ∨ esc_char_js c = [c]) ∧
    (∀ s : String, (escape_js s).data = s.data.flatMap esc_char_js) ∧
    unescape_js (escape_js "\"<>&") = "\"<>&" := by
  have hrt : ∀ s : String, unescape_js (escape_js s) = s := by
    intro s
    obtain ⟨l⟩ := s
    show (⟨unescape_js_chars (escape_js ⟨l⟩).data⟩ : String) = ⟨l⟩
    rw [escape_js_data, unescape_flatMap]
  refine ⟨hrt, ?_, escape_js_data, hrt "\"<>&"⟩
  intro c
  by_cases h1 : c = '\\'
  · exact Or.inl (by rw [h1]; exact List.mem_cons_self _ _)
  by_cases h2 : c = '"'
  · exact Or.inl (by rw [h2]; simp)
  by_cases h3 : c = '\n'
  · exact Or.inl (by rw [h3]; simp)
  by_cases h4 : c = '\r'
  · exact Or.inl (by rw [h4]; simp)
  · exact Or.inr (by simp [esc_char_js, h1, h2, h3, h4])

/-! ### Claims C5, C6 — catalog reconciliation structure -/

lemma add_new_entries_spec (kept : List MediaFile) :
    ∀ entries : List MetaMedia, ∃ news : List MetaMedia,
      (add_new_entries entries kept).1 = entries ++ news ∧
      (add_new_entries entries kept).2 = news.length ∧
      List.Sublist (news.map (·.name)) (kept.map (·.name)) ∧
      (∀ e ∈ news, ∀ x ∈ entries, x.name ≠ e.name) := by
  induction kept with
  | nil =>
    intro entries
    exact ⟨[], by simp [add_new_entries], by simp [add_new_entries],
      List.Sublist.refl _, by intro e he; cases he⟩
  | cons f fs ih =>
    intro entries
    by_cases hc : entries.any (fun e => e.name = f.name)
    · obtain ⟨news, h1, h2, h3, h4⟩ := ih entries
      refine ⟨news, ?_, ?_, List.Sublist.cons f.name h3, h4⟩
      · rw [add_new_entries, if_pos hc]; exact h1
      · rw [add_new_entries, if_pos hc]; exact h2
    · obtain ⟨news, h1, h2, h3, h4⟩ :=
        ih (entries ++ [⟨f.name, extract_oldest_date f⟩])
      refine ⟨⟨f.name, extract_oldest_date f⟩ :: news, ?_, ?_, ?_, ?_⟩
      · rw [add_new_entries, if_neg hc]
        simpa [List.append_assoc] using h1
      · rw [add_new_entries, if_neg hc]
        simp only [h2, List.length_cons]
      · exact List.Sublist.cons₂ f.name h3
      · intro e he x hx
        rcases List.mem_cons.1 he with he | he
        · subst he
          intro hn
          exact hc (List.any_eq_true.2 ⟨x, hx, by simp [hn]⟩)
        · exact h4 e he x (List.mem_append_left _ hx)

lemma update_metadata_struct (entries : List MetaMedia) (files : List MediaFile) :
    ∃ news : List MetaMedia,
      (update_metadata entries (some files)).1 =
        entries.filter (fun e => (current_files files).contains e.name) ++ news ∧
      (∀ e ∈ news, e.name ∈ current_files files) ∧
      (∀ e ∈ news, ∀ x ∈ entries, x.name ≠ e.name) ∧
      List.Sublist (news.map (·.name)) (current_files files) := by
  obtain ⟨news, h1, _, h3, h4⟩ := add_new_entries_spec (files.filter keeps_file) entries
  have hcur : current_files files = (files.filter keeps_file).map (·.name) := rfl
  have hmemcur : ∀ e ∈ news, e.name ∈ current_files files := by
    intro e he
    rw [hcur]
    exact h3.subset (List.mem_map_of_mem (·.name) he)
  refine ⟨news, ?_, hmemcur, h4, by rw [hcur]; exact h3⟩
  show ((add_new_entries entries (files.filter keeps_file)).1.filter
      (fun e => ((files.filter keeps_file).map (·.name)).contains e.name)) = _
  rw [h1, List.filter_append]
  have : news.filter
      (fun e => ((files.filter keeps_file).map (·.name)).contains e.name) = news := by
    rw [List.filter_eq_self]
    intro e he
    exact List.elem_iff.2 (by rw [← hcur]; exact hmemcur e he)
  rw [this]
  rfl

lemma find_name_filter (l : List MetaMedia) (n : String) (keep : String → Bool) :
    (l.filter (fun e => keep e.name)).find? (fun e => e.name = n) =
      if keep n then l.find? (fun e => e.name = n) else none := by
  induction l with
  | nil => simp
  | cons e t ih =>
    by_cases hq : e.name = n
    · by_cases hk : keep e.name
      · have hn : keep n = true := hq ▸ hk
        simp [List.filter_cons, List.find?_cons, hk, hq, hn]
      · have hn : keep n = false := by
          rw [← hq]; exact Bool.not_eq_true _ ▸ (by simpa using hk)
        simp [List.filter_cons, List.find?_cons, hk, hq, hn, ih]
    · by_cases hk : keep e.name
      · simp [List.filter_cons, List.find?_cons, hk, hq, ih]
      · simp [List.filter_cons, List.find?_cons, hk, hq, ih]

/-- C6: reconciliation never rewrites an existing entry — a filename
cataloged both before and after a reconcile keeps its capture datetime —
and the entry list changes only by removing entries whose file is no
longer listed and appending entries for newly listed files (whose names
were not in the catalog before). -/
theorem claim_C6_no_rewrite :
    (∀ (entries : List MetaMedia) (files : List MediaFile) (n d d' : String),
      get_datetime entries n = some d →
      get_datetime (update_metadata entries (some files)).1 n = some d' →
      d = d') ∧
    (∀ (entries : List MetaMedia) (files : List MediaFile),
      ∃ news : List MetaMedia,
        (update_metadata entries (some files)).1 =
          entries.filter (fun e => (current_files files).contains e.name) ++ news ∧
        (∀ e ∈ news, e.name ∈ current_files files) ∧
        (∀ e ∈ news, ∀ x ∈ entries, x.name ≠ e.name)) := by
  constructor
  · intro entries files n d d' h1 h2
    obtain ⟨news, heq, hcur, hfresh, _⟩ := update_metadata_struct entries files
    obtain ⟨e0, hfind, hd0⟩ :
        ∃ e0, entries.find? (fun e => e.name = n) = some e0 ∧ e0.datetime = d := by
      unfold get_datetime at h1
      rcases hf : entries.find? (fun e => e.name = n) with _ | e0
      · rw [hf] at h1; cases h1
      · rw [hf] at h1; exact ⟨e0, hf, by simpa using h1⟩
    have he0name : e0.name = n := by
      have := List.find?_some hfind
      simpa using this
    have he0mem : e0 ∈ entries := List.mem_of_find?_eq_some hfind
    have hnewsnone : news.find? (fun e => e.name = n) = none := by
      rw [List.find?_eq_none]
      intro x hx
      simp only [decide_eq_true_eq]
      intro hxn
      exact hfresh x hx e0 he0mem (by rw [he0name, hxn])
    unfold get_datetime at h2
    rw [heq, List.find?_append, find_name_filter] at h2
    by_cases hn : (current_files files).contains n
    · rw [if_pos hn, hfind] at h2
      have h2' : some e0.datetime = some d' := h2
      rw [← hd0]
      exact Option.some.inj h2'
    · rw [if_neg hn, hnewsnone] at h2
      simp at h2
  · intro entries files
    obtain ⟨news, heq, hcur, hfresh, _⟩ := update_metadata_struct entries files
    exact ⟨news, heq, hcur, hfresh⟩

/-- C6 witness: a concrete catalog entry for `a.jpg` survives a reconcile
against a directory still containing `a.jpg` with its datetime unchanged. -/
theorem claim_C6_no_rewrite_witness : "2020-01-01T10:00:00" = "2020-01-01T10:00:00" :=
  claim_C6_no_rewrite.1 [⟨"a.jpg", "2020-01-01T10:00:00"⟩] [bareFile "a.jpg"]
    "a.jpg" "2020-01-01T10:00:00" "2020-01-01T10:00:00" rfl rfl

/-- C5 counterexample: after reconciling `c5entries` against `c5dir`, the
persisted entries are ordered `b.jpg, a.jpg` — the surviving old entry
first — not in the directory-listing order `a.jpg, b.jpg`. -/
theorem claim_C5_counterexample :
    (update_metadata c5entries (some c5dir)).1.map (·.name) = ["b.jpg", "a.jpg"] ∧
    current_files c5dir = ["a.jpg", "b.jpg"] ∧
    (update_metadata c5entries (some c5dir)).1.map (·.name) ≠ current_files c5dir := by
  refine ⟨rfl, rfl, ?_⟩
  decide

lemma add_new_entries_all_new (kept : List MediaFile) :
    ∀ entries : List MetaMedia,
      (∀ f ∈ kept, entries.any (fun e => e.name = f.name) = false) →
      (kept.map (·.name)).Nodup →
      (add_new_entries entries kept).1 =
        entries ++ kept.map (fun f => ⟨f.name, extract_oldest_date f⟩) := by
  induction kept with
  | nil => intro entries _ _; simp [add_new_entries]
  | cons f fs ih =>
    intro entries hnew hnd
    have hf : entries.any (fun e => e.name = f.name) = false :=
      hnew f (List.mem_cons_self f fs)
    rw [add_new_entries, if_neg (by rw [hf]; exact Bool.false_ne_true)]
    have hnd' : (fs.map (·.name)).Nodup := (List.nodup_cons.1 hnd).2
    have hfnotin : f.name ∉ fs.map (·.name) := (List.nodup_cons.1 hnd).1
    have hnew' : ∀ g ∈ fs,
        (entries ++ [(⟨f.name, extract_oldest_date f⟩ : MetaMedia)]).any
          (fun e => e.name = g.name) = false := by
      intro g hg
      rw [List.any_append]
      have h1 : entries.any (fun e => e.name = g.name) = false :=
        hnew g (List.mem_cons_of_mem f hg)
      have h2 : ([(⟨f.name, extract_oldest_date f⟩ : MetaMedia)]).any
          (fun e => e.name = g.name) = false := by
        simp only [List.any_cons, List.any_nil, Bool.or_false]
        apply decide_eq_false
        intro hfg
        exact hfnotin (hfg ▸ List.mem_map_of_mem (·.name) hg)
      rw [h1, h2]
      rfl
    show (add_new_entries
        (entries ++ [(⟨f.name, extract_oldest_date f⟩ : MetaMedia)]) fs).1 = _
    rw [ih (entries ++ [(⟨f.name, extract_oldest_date f⟩ : MetaMedia)]) hnew' hnd']
    simp [List.append_assoc]

/-- The persisted-state component of `update_metadata` on an existing
directory, written through `add_new_entries`. -/
lemma update_metadata_fst (entries : List MetaMedia) (files : List MediaFile) :
    (update_metadata entries (some files)).1 =
      ((add_new_entries entries (files.filter keeps_file)).1).filter
        (fun e => (current_files files).contains e.name) := rfl

/-- C5 as amended: after a reconcile the persisted entry names are the
surviving prior names in their prior catalog order, followed by the
newly added names as an order-preserving sublist of the listing; the
persisted order equals the directory-listing order of supported files
when the prior catalog is empty (as on a first reconcile), but not in
general. -/
theorem claim_C5_amended :
    (∀ (entries : List MetaMedia) (files : List MediaFile),
      ∃ ns : List String,
        (update_metadata entries (some files)).1.map (·.name) =
          (entries.map (·.name)).filter
            (fun n => (current_files files).contains n) ++ ns ∧
        List.Sublist ns (current_files files)) ∧
    (∀ files : List MediaFile, (current_files files).Nodup →
      (update_metadata [] (some files)).1.map (·.name) = current_files files) := by
  constructor
  · intro entries files
    obtain ⟨news, heq, _, _, hsub⟩ := update_metadata_struct entries files
    refine ⟨news.map (·.name), ?_, hsub⟩
    rw [heq, List.map_append, List.filter_map]
    rfl
  · intro files hnd
    have hcur : current_files files = (files.filter keeps_file).map (·.name) := rfl
    rw [update_metadata_fst]
    rw [add_new_entries_all_new (files.filter keeps_file) []
      (fun f _ => rfl) (by rw [← hcur]; exact hnd)]
    rw [List.nil_append]
    have hall : ((files.filter keeps_file).map
        (fun f => (⟨f.name, extract_oldest_date f⟩ : MetaMedia))).filter
          (fun e => (current_files files).contains e.name) =
        (files.filter keeps_file).map
          (fun f => (⟨f.name, extract_oldest_date f⟩ : MetaMedia)) := by
      rw [List.filter_eq_self]
      intro e he
      obtain ⟨f, hf, rfl⟩ := List.mem_map.1 he
      exact List.elem_iff.2 (by rw [hcur]; exact List.mem_map_of_mem (·.name) hf)
    rw [hall, List.map_map, hcur]
    rfl

/-- C5 amended witness: on the counterexample directory with an empty
prior catalog, the persisted order equals the listing order. -/
theorem claim_C5_amended_witness :
    (update_metadata [] (some c5dir)).1.map (·.name) = current_files c5dir :=
  claim_C5_amended.2 c5dir (by decide)

/-! ### Claims C8, C10 — caption resolution -/

lemma from_path_some (f : MediaFile) (dt : Option String) (m : WebsiteMedia)
    (h : from_path f dt = some m) :
    m.title = (resolve_caption (file_stem f.name) f.sidecar).1 ∧
    m.description = (resolve_caption (file_stem f.name) f.sidecar).2 := by
  simp only [from_path] at h
  split at h
  · cases h
  · split at h
    · cases h
    · split at h
      · cases h
      · have hm := Option.some.inj h
        subst hm
        exact ⟨rfl, rfl⟩

lemma resolve_caption_ok (stem c : String) :
    resolve_caption stem (some (.ok c)) =
      match rust_lines c with
      | [] => (stem, "")
      | [l] => (stem, rust_trim l)
      | l :: ls => (rust_trim l, rust_trim (String.intercalate "\n" ls)) := rfl

/-- C8: caption resolution from a same-stem `.txt` sidecar — two or more
lines give title = first line trimmed and description = remaining lines
joined and trimmed; exactly one line gives title = the filename stem and
description = that line trimmed; a missing or empty sidecar gives title =
the filename stem and an empty description. -/
theorem claim_C8_captions (f : MediaFile) (dt : Option String) (m : WebsiteMedia)
    (h : from_path f dt = some m) :
    (f.sidecar = none → m.title = file_stem f.name ∧ m.description = "") ∧
    (∀ c : String, f.sidecar = some (.ok c) →
      (rust_lines c = [] → m.title = file_stem f.name ∧ m.description = "") ∧
      (∀ l, rust_lines c = [l] →
        m.title = file_stem f.name ∧ m.description = rust_trim l) ∧
      (∀ l1 l2 ls, rust_lines c = l1 :: l2 :: ls →
        m.title = rust_trim l1 ∧
        m.description = rust_trim (String.intercalate "\n" (l2 :: ls)))) := by
  obtain ⟨ht, hd⟩ := from_path_some f dt m h
  constructor
  · intro hs
    rw [ht, hd, hs]
    exact ⟨rfl, rfl⟩
  · intro c hs
    rw [ht, hd, hs]
    refine ⟨?_, ?_, ?_⟩
    · intro hl
      rw [resolve_caption_ok, hl]
      exact ⟨rfl, rfl⟩
    · intro l hl
      rw [resolve_caption_ok, hl]
      exact ⟨rfl, rfl⟩
    · intro l1 l2 ls hl
      rw [resolve_caption_ok, hl]
      exact ⟨rfl, rfl⟩

/-- C8 witness: the spec's two-line example "My Trip\nA day at the lake"
yields title "My Trip" and description "A day at the lake". -/
theorem claim_C8_captions_witness :
    c8media.title = rust_trim "My Trip" ∧
    c8media.description = rust_trim (String.intercalate "\n" ["A day at the lake"]) :=
  ((claim_C8_captions c8file (some "2020-01-01T00:00:00") c8media rfl).2
    "My Trip\nA day at the lake" rfl).2.2 "My Trip" "A day at the lake" [] rfl

/-- C10: a sidecar that exists but cannot be read is swallowed —
classification yields exactly the asset it would yield for an empty
sidecar (so no error propagates), with title = the filename stem and an
empty description; and classification still succeeds for any regular
file with a supported extension. -/
theorem claim_C10_sidecar_error (f : MediaFile) (dt : Option String)
    (h : f.sidecar = some (.error ())) :
    from_path f dt = from_path { f with sidecar := some (.ok "") } dt ∧
    (∀ m, from_path f dt = some m →
      m.title = file_stem f.name ∧ m.description = "") ∧
    (f.isFile = true → ∀ e, path_extension f.name = some e →
      SUPPORTED_EXTENSIONS.contains (to_lowercase e) = true →
      (from_path f dt).isSome = true) := by
  obtain ⟨name, isFile, exif, created, modified, sidecar, upToDate, rs, gs⟩ := f
  simp only at h
  subst h
  refine ⟨rfl, ?_, ?_⟩
  · intro m hm
    obtain ⟨ht, hd⟩ := from_path_some _ dt m hm
    exact ⟨by rw [ht]; rfl, by rw [hd]; rfl⟩
  · intro hfile e hext hsupp
    simp only at hfile hext ⊢
    subst hfile
    unfold from_path
    simp only [hext, hsupp, Bool.not_true, Bool.false_eq_true, if_false]
    rfl

/-- C10 witness: the failed sidecar read on `pic.png` still classifies,
with title "pic" and empty description. -/
theorem claim_C10_sidecar_error_witness :
    c10media.title = file_stem "pic.png" ∧ c10media.description = "" :=
  (claim_C10_sidecar_error c10file none rfl).2.1 c10media rfl

/-! ### Claims C1, C4 — build aggregation and output order -/

lemma gather_scan_spec (entries : List MetaMedia) (b m : String)
    (files : List MediaFile) :
    ∀ (res : List GenerationResult) (ents rss : List String) (k : Nat),
      gather_results (files.filterMap (process_item b m entries)) =
        .ok (res, ents, rss, k) →
      ents = (classified_items entries files).map (fun it => to_json_entry it b m) ∧
      rss = (classified_items entries files).map (fun it => to_rss_item it b m) ∧
      res.length = (classified_items entries files).length ∧
      k = ((classified_files entries files).filter (·.upToDate)).length := by
  induction files with
  | nil =>
    intro res ents rss k h
    simp only [List.filterMap_nil, gather_results] at h
    injection h with h
    simp only [Prod.mk.injEq] at h
    obtain ⟨h1, h2, h3, h4⟩ := h
    subst h1; subst h2; subst h3; subst h4
    exact ⟨rfl, rfl, rfl, rfl⟩
  | cons f fs ih =>
    intro res ents rss k h
    rcases hp : from_path f (get_datetime entries f.name) with _ | item
    · have hnone : process_item b m entries f = none := by
        simp only [process_item, hp]
      rw [List.filterMap_cons_none hnone] at h
      obtain ⟨h1, h2, h3, h4⟩ := ih res ents rss k h
      have hci : classified_items entries (f :: fs) = classified_items entries fs := by
        unfold classified_items
        rw [List.filterMap_cons_none (by simpa using hp)]
      have hcf : classified_files entries (f :: fs) = classified_files entries fs := by
        unfold classified_files
        rw [List.filter_cons_of_neg (by simp [hp])]
      rw [hci, hcf]
      exact ⟨h1, h2, h3, h4⟩
    · have hci : classified_items entries (f :: fs) =
          item :: classified_items entries fs := by
        unfold classified_items
        rw [List.filterMap_cons_some (by simpa using hp)]
      have hcf : classified_files entries (f :: fs) =
          f :: classified_files entries fs := by
        unfold classified_files
        rw [List.filter_cons_of_pos (by simp [hp])]
      rcases hu : f.upToDate with _ | _
      · rcases hg : f.genSizes with e | ⟨a, c⟩
        · have hstep : process_item b m entries f = some (.error e) := by
            simp [process_item, hp, hu, hg, Except.map]
          rw [List.filterMap_cons_some hstep] at h
          cases h
        · have hstep : process_item b m entries f = some (.ok
              ({ media_size := a, thumb_size := c,
                 image_url := image_url item b m },
               to_json_entry item b m, to_rss_item item b m, false)) := by
            simp [process_item, hp, hu, hg, Except.map]
          rw [List.filterMap_cons_some hstep] at h
          have hred : gather_results ((.ok
              ({ media_size := a, thumb_size := c,
                 image_url := image_url item b m },
               to_json_entry item b m, to_rss_item item b m, false) :
                Except Unit (GenerationResult × String × String × Bool)) ::
              fs.filterMap (process_item b m entries)) =
              (gather_results (fs.filterMap (process_item b m entries))).map
                (fun acc =>
                  ({ media_size := a, thumb_size := c,
                     image_url := image_url item b m } :: acc.1,
                   to_json_entry item b m :: acc.2.1,
                   to_rss_item item b m :: acc.2.2.1, acc.2.2.2)) := rfl
          rw [hred] at h
          rcases hrec : gather_results (fs.filterMap (process_item b m entries)) with
            e' | acc
          · rw [hrec] at h; cases h
          · obtain ⟨res0, ents0, rss0, k0⟩ := acc
            rw [hrec] at h
            injection h with h
            simp only [Prod.mk.injEq] at h
            obtain ⟨h1, h2, h3, h4⟩ := h
            obtain ⟨e1, e2, e3, e4⟩ := ih res0 ents0 rss0 k0 hrec
            rw [hci, hcf, ← h1, ← h2, ← h3, ← h4]
            refine ⟨by simp [e1], by simp [e2], ?_, ?_⟩
            · simp [e3]
            · rw [List.filter_cons_of_neg (by simp [hu])]
              exact e4
      · rcases hg : f.readSizes with e | ⟨a, c⟩
        · have hstep : process_item b m entries f = some (.error e) := by
            simp [process_item, hp, hu, hg, Except.map]
          rw [List.filterMap_cons_some hstep] at h
          cases h
        · have hstep : process_item b m entries f = some (.ok
              ({ media_size := a, thumb_size := c,
                 image_url := image_url item b m },
               to_json_entry item b m, to_rss_item item b m, true)) := by
            simp [process_item, hp, hu, hg, Except.map]
          rw [List.filterMap_cons_some hstep] at h
          have hred : gather_results ((.ok
              ({ media_size := a, thumb_size := c,
                 image_url := image_url item b m },
               to_json_entry item b m, to_rss_item item b m, true) :
                Except Unit (GenerationResult × String × String × Bool)) ::
              fs.filterMap (process_item b m entries)) =
              (gather_results (fs.filterMap (process_item b m entries))).map
                (fun acc =>
                  ({ media_size := a, thumb_size := c,
                     image_url := image_url item b m } :: acc.1,
                   to_json_entry item b m :: acc.2.1,
                   to_rss_item item b m :: acc.2.2.1, acc.2.2.2 + 1)) := rfl
          rw [hred] at h
          rcases hrec : gather_results (fs.filterMap (process_item b m entries)) with
            e' | acc
          · rw [hrec] at h; cases h
          · obtain ⟨res0, ents0, rss0, k0⟩ := acc
            rw [hrec] at h
            injection h with h
            simp only [Prod.mk.injEq] at h
            obtain ⟨h1, h2, h3, h4⟩ := h
            obtain ⟨e1, e2, e3, e4⟩ := ih res0 ents0 rss0 k0 hrec
            rw [hci, hcf, ← h1, ← h2, ← h3, ← h4]
            refine ⟨by simp [e1], by simp [e2], ?_, ?_⟩
            · simp [e3]
            · rw [List.filter_cons_of_pos (by simp [hu])]
              simp [e4]

lemma length_filter_upToDate_split (l : List MediaFile) :
    l.length = (l.filter (·.upToDate)).length +
      (l.filter (fun f => !f.upToDate)).length := by
  induction l with
  | nil => rfl
  | cons f fs ih =>
    rcases hu : f.upToDate with _ | _
    · rw [List.filter_cons_of_neg (by simp [hu]),
        List.filter_cons_of_pos (by simp [hu])]
      simp only [List.length_cons, ih]
      omega
    · rw [List.filter_cons_of_pos (by simp [hu]),
        List.filter_cons_of_neg (by simp [hu])]
      simp only [List.length_cons, ih]
      omega

lemma classified_files_length (entries : List MetaMedia) (files : List MediaFile) :
    (classified_files entries files).length =
      (classified_items entries files).length := by
  induction files with
  | nil => rfl
  | cons f fs ih =>
    rcases hp : from_path f (get_datetime entries f.name) with _ | item
    · unfold classified_files classified_items
      rw [List.filter_cons_of_neg (by simp [hp]),
        List.filterMap_cons_none (by simpa using hp)]
      exact ih
    · unfold classified_files classified_items
      rw [List.filter_cons_of_pos (by simp [hp]),
        List.filterMap_cons_some (by simpa using hp)]
      simp only [List.length_cons]
      exact congrArg (fun n => n + 1) ih

/-- C1 counterexample: a build over one classified, up-to-date asset
succeeds and reports `items_processed = 1` and `items_skipped = 1`: the
skipped asset is counted in both fields, so processed + skipped = 2 ≠ 1 =
the number of classified assets, and this all-assets-up-to-date build
(the second build with no source changes) reports a processed count of
1, not 0. -/
theorem claim_C1_counterexample :
    (scan_and_copy_media c1lib (some [c1file]) "u" "m").toOption.isSome = true ∧
    (classified_items c1lib [c1file]).length = 1 ∧
    c1report.items_processed = 1 ∧
    c1report.items_skipped = 1 ∧
    c1report.items_processed + c1report.items_skipped ≠
      (classified_items c1lib [c1file]).length ∧
    c1report.items_processed ≠ 0 := by
  exact ⟨rfl, rfl, rfl, rfl, by decide, by decide⟩

/-- C1 as amended: in every successful scan, `items_processed` counts all
classified assets — up-to-date ones included — and `items_skipped` counts
the classified assets judged up to date, so `items_processed` =
`items_skipped` + the number of regenerated (stale) assets; a second
build with no source changes therefore reports processed = skipped = the
asset count, every asset being skipped. -/
theorem claim_C1_amended (entries : List MetaMedia) (files : List MediaFile)
    (b m json : String) (rss : List String) (results : List GenerationResult)
    (skipped t : Nat)
    (h : scan_and_copy_media entries (some files) b m =
      .ok (json, rss, results, skipped)) :
    (from_results results skipped t).items_processed =
      (classified_items entries files).length ∧
    (from_results results skipped t).items_skipped =
      ((classified_files entries files).filter (·.upToDate)).length ∧
    (from_results results skipped t).items_processed =
      (from_results results skipped t).items_skipped +
        ((classified_files entries files).filter (fun f => !f.upToDate)).length := by
  simp only [scan_and_copy_media] at h
  rcases hg : gather_results (files.filterMap (process_item b m entries)) with e | acc
  · rw [hg] at h; cases h
  · obtain ⟨res0, ents0, rss0, k0⟩ := acc
    rw [hg] at h
    simp only [Except.map] at h
    injection h with h
    simp only [Prod.mk.injEq] at h
    obtain ⟨hj, hr, hres, hk⟩ := h
    obtain ⟨e1, e2, e3, e4⟩ := gather_scan_spec entries b m files res0 ents0 rss0 k0 hg
    refine ⟨?_, ?_, ?_⟩
    · show results.length = _
      rw [← hres, e3]
    · show skipped = _
      rw [← hk, e4]
    · show results.length = skipped + _
      rw [← hres, e3, ← classified_files_length, length_filter_upToDate_split,
        ← hk, e4]

/-- C1 amended witness: the one-asset all-up-to-date build. -/
theorem claim_C1_amended_witness :
    (from_results c1out.2.2.1 c1out.2.2.2 0).items_processed =
      (classified_items c1lib [c1file]).length ∧
    (from_results c1out.2.2.1 c1out.2.2.2 0).items_skipped =
      ((classified_files c1lib [c1file]).filter (·.upToDate)).length ∧
    (from_results c1out.2.2.1 c1out.2.2.2 0).items_processed =
      (from_results c1out.2.2.1 c1out.2.2.2 0).items_skipped +
        ((classified_files c1lib [c1file]).filter (fun f => !f.upToDate)).length :=
  claim_C1_amended c1lib [c1file] "u" "m" c1out.1 c1out.2.1 c1out.2.2.1
    c1out.2.2.2 0 rfl

/-- C4: in every successful scan, the emitted JSON array and the feed
item list are the renderings of the classified assets in the original
directory-listing order.  The rayon `par_iter` fan-out lets workers
finish in any order, but its `collect` reassembles the per-item outcomes
by input position, which the embedding reflects; the sequential gather
then preserves that listing order into both outputs. -/
theorem claim_C4_output_order (entries : List MetaMedia) (files : List MediaFile)
    (b m json : String) (rss : List String) (results : List GenerationResult)
    (skipped : Nat)
    (h : scan_and_copy_media entries (some files) b m =
      .ok (json, rss, results, skipped)) :
    json = render_json ((classified_items entries files).map
      (fun it => to_json_entry it b m)) ∧
    rss = (classified_items entries files).map (fun it => to_rss_item it b m) := by
  simp only [scan_and_copy_media] at h
  rcases hg : gather_results (files.filterMap (process_item b m entries)) with e | acc
  · rw [hg] at h; cases h
  · obtain ⟨res0, ents0, rss0, k0⟩ := acc
    rw [hg] at h
    simp only [Except.map] at h
    injection h with h
    simp only [Prod.mk.injEq] at h
    obtain ⟨hj, hr, _, _⟩ := h
    obtain ⟨e1, e2, _, _⟩ := gather_scan_spec entries b m files res0 ents0 rss0 k0 hg
    exact ⟨by rw [← hj, e1], by rw [← hr, e2]⟩

/-- C4 witness: on the concrete two-file listing the JSON array and feed
items come out in listing order. -/
theorem claim_C4_output_order_witness :
    c4out.1 = render_json ((classified_items [] [c4fileA, c4fileB]).map
      (fun it => to_json_entry it "u" "m")) ∧
    c4out.2.1 = (classified_items [] [c4fileA, c4fileB]).map
      (fun it => to_rss_item it "u" "m") :=
  claim_C4_output_order [] [c4fileA, c4fileB] "u" "m" c4out.1 c4out.2.1
    c4out.2.2.1 c4out.2.2.2 rfl

end Clutterlog
